import Mathlib

/-!
Verification of the AlphaZero_Gobang training pipeline (`Train.py`) and
tournament judge (`ModelContest.py`).

The Python code is shallowly embedded: floats are modelled as rationals
(the comparisons the code performs are exact on the values involved),
the mutable `self.config` object becomes an explicit `Config` record
threaded through pure step functions, and Python exceptions become
`Except` results.  External collaborators (the neural network, the game
engine, MCTS players) are abstracted exactly where the source calls out
to them: game outcomes enter as win-ratio inputs, network parameter
blobs are not modelled.
-/

namespace AlphaZeroGobang

/-- Loss breakdown returned by `PolicyValueNet.fit` (`Train.py` line 63);
only the components stored in `loss_records` are modelled. -/
structure LossInfo where
  combined_loss : ℚ
  value_loss : ℚ
  policy_loss : ℚ
  entropy : ℚ
  deriving DecidableEq, Repr

/-- One replay-buffer entry: (state planes, flattened mcts probabilities,
winner sign).  The buffer contents are opaque to the controller logic
verified here; plane entries are rationals. -/
abbrev BufEntry : Type := List (List ℚ) × List ℚ × ℤ

/-- The mutable configuration/state aggregate `self.config` of
`TrainPipeline` (fields referenced by `Train.py`; the hyperparameter
defaults live in the repository's `Config.py`, which only provides
initial values and is not needed by the logic verified here). -/
structure Config where
  board_width : ℕ
  board_height : ℕ
  n_in_row : ℕ
  evaluate_opponent : String
  best_win_pure_so_far : ℚ
  pure_mcts_playout_num : ℕ
  continuous_win_pure_times : ℕ
  change_opponent_continuous_times : ℕ
  win_ratio_alphazero : ℚ
  cur_best_alphazero_store_filename : String
  learn_rate : ℚ
  lr_multiplier : ℚ
  kl_targ : ℚ
  min_mean_loss_every_check_freq : Option ℚ
  increase_mean_loss_times : ℕ
  adjust_lr_increase_loss_times : ℕ
  check_freq : ℕ
  start_game_num : ℕ
  game_batch_num : ℕ
  data_buffer : List BufEntry
  loss_records : List LossInfo
  episode_records : List ℕ
  deriving DecidableEq

/-- The multiplier update performed by
`TrainPipeline.adjust_learning_rate` (`Train.py` lines 83-86):
`if kl > kl_targ * 2 and lr_multiplier > 0.1: lr_multiplier /= 1.5`
`elif kl < kl_targ / 2 and lr_multiplier < 10: lr_multiplier *= 1.5`.
Only the multiplier is mutated by this method; the KL value itself is
computed from network predictions, so it enters here as an input. -/
def adjust_learning_rate (kl kl_targ lr_multiplier : ℚ) : ℚ :=
  if kl > kl_targ * 2 ∧ lr_multiplier > 1/10 then
    lr_multiplier / (3/2)
  else if kl < kl_targ / 2 ∧ lr_multiplier < 10 then
    lr_multiplier * (3/2)
  else
    lr_multiplier

/-- The promotion condition of `TrainPipeline.save_model`
(`Train.py` lines 163-166): the checkpoint branch is entered when
`(evaluate_opponent == 'Pure' and win_ratio > best_win_pure_so_far) or`
`(evaluate_opponent == 'Pure' and pure_mcts_playout_num == 5000 and win_ratio == 1.0) or`
`(evaluate_opponent == 'AlphaZero' and win_ratio >= win_ratio_alphazero)`. -/
abbrev promotionCond (c : Config) (wr : ℚ) : Prop :=
  (c.evaluate_opponent = "Pure" ∧ wr > c.best_win_pure_so_far) ∨
  (c.evaluate_opponent = "Pure" ∧ c.pure_mcts_playout_num = 5000 ∧ wr = 1) ∨
  (c.evaluate_opponent = "AlphaZero" ∧ wr ≥ c.win_ratio_alphazero)

/-- One replacement field of a Python format string: a literal chunk, an
automatically numbered field `\x7b\x7d`, or a manually numbered field
`\x7bi:spec\x7d` (the format spec is recorded but only consulted when
the field is actually rendered). -/
inductive FmtChunk where
  | lit (s : String)
  | auto
  | manual (idx : ℕ) (fspec : String)

/-- CPython `str.format` field processing, modelled from Python's
documented semantics: fields are processed left to right; switching from
automatic field numbering to manual field specification (or back) raises
`ValueError`; a field index beyond the argument list raises
`IndexError`.  Arguments are passed pre-rendered as strings (the value
rendering itself is irrelevant to the claims below). -/
def pyFormatGo : List FmtChunk → List String → ℕ → Bool → Bool →
    Except String String
  | [], _, _, _, _ => .ok ""
  | .lit s :: rest, args, nextAuto, autoUsed, manualUsed =>
      (pyFormatGo rest args nextAuto autoUsed manualUsed).map (fun r => s ++ r)
  | .auto :: rest, args, nextAuto, _, manualUsed =>
      if manualUsed then
        .error "cannot switch from manual field specification to automatic field numbering"
      else
        match args.get? nextAuto with
        | none => .error "Replacement index out of range"
        | some v =>
            (pyFormatGo rest args (nextAuto + 1) true manualUsed).map
              (fun r => v ++ r)
  | .manual i _ :: rest, args, nextAuto, autoUsed, _ =>
      if autoUsed then
        .error "cannot switch from automatic field numbering to manual field specification"
      else
        match args.get? i with
        | none => .error "Replacement index out of range"
        | some v =>
            (pyFormatGo rest args nextAuto autoUsed true).map (fun r => v ++ r)

/-- Entry point of the `str.format` model. -/
def pyFormat (template : List FmtChunk) (args : List String) :
    Except String String :=
  pyFormatGo template args 0 false false

/-- The checkpoint-filename template of `Train.py` lines 171-172.  The
source string (after Python's adjacent-literal concatenation) is
`../drive/\x7b\x7d_\x7b\x7d_\x7b\x7d_data/epochs-\x7b0\x7d-opponent-\x7b1\x7d-win-\x7b2:.2f\x7d.pkl`:
three automatic fields followed by three manually numbered ones. -/
def storeFilenameTemplate : List FmtChunk :=
  [.lit "../drive/", .auto, .lit "_", .auto, .lit "_", .auto,
   .lit "_data/epochs-", .manual 0 "", .lit "-opponent-", .manual 1 "",
   .lit "-win-", .manual 2 ".2f", .lit ".pkl"]

/-- Two-decimal rendering of a win ratio (the `:.2f` format spec); the
rounding mode differs from CPython's round-half-even on exact halves,
but no claim below depends on the rendered digits (the format call
fails before rendering any manually numbered argument). -/
def formatFixed2 (q : ℚ) : String :=
  let c : ℤ := round (q * 100)
  let frac : ℕ := (c % 100).natAbs
  toString (c / 100) ++ "." ++
    (if frac < 10 then "0" ++ toString frac else toString frac)

/-- The filename computation of `Train.py` lines 171-178: the template
above applied (via `str.format`) to
`(board_width, board_height, n_in_row, epochs, evaluate_opponent, win_ratio)`. -/
def formatStoreFilename (c : Config) (wr : ℚ) (epochs : ℕ) :
    Except String String :=
  pyFormat storeFilenameTemplate
    [toString c.board_width, toString c.board_height, toString c.n_in_row,
     toString epochs, c.evaluate_opponent, formatFixed2 wr]

/-- The opponent-adjustment tail of `TrainPipeline.save_model`
(`Train.py` lines 186-201), faithful to the sequential field mutations:
first the rollout opponent is strengthened (and the best-ratio tracker
reset to 0.0) when `evaluate_opponent == 'Pure'`,
`win_ratio > best_win_pure_so_far`, `win_ratio == 1.0` and
`pure_mcts_playout_num < 5000`; then the consecutive-perfect-win counter
is incremented when `evaluate_opponent == 'Pure'`,
`pure_mcts_playout_num >= 5000` (reading the possibly-updated value) and
`win_ratio == 1.0`; finally the opponent is switched to `'AlphaZero'`
when it is `'Pure'` and the (possibly-updated) counter has reached
`change_opponent_continuous_times`.  The three sequential mutations are
`escalate_rollout` (lines 187-190), `count_perfect_win` (lines 193-195)
and `switch_opponent` (lines 198-201), composed in source order by
`adjust_opponent`. -/
def escalate_rollout (c : Config) (wr : ℚ) : Config :=
  if c.evaluate_opponent = "Pure" ∧ wr > c.best_win_pure_so_far then
    if wr = 1 ∧ c.pure_mcts_playout_num < 5000 then
      { c with pure_mcts_playout_num := c.pure_mcts_playout_num + 1000,
               best_win_pure_so_far := 0 }
    else c
  else c

def count_perfect_win (c : Config) (wr : ℚ) : Config :=
  if c.evaluate_opponent = "Pure" ∧ c.pure_mcts_playout_num ≥ 5000 ∧ wr = 1 then
    { c with continuous_win_pure_times := c.continuous_win_pure_times + 1 }
  else c

def switch_opponent (c : Config) : Config :=
  if c.evaluate_opponent = "Pure" ∧
      c.continuous_win_pure_times ≥ c.change_opponent_continuous_times then
    { c with evaluate_opponent := "AlphaZero" }
  else c

def adjust_opponent (c : Config) (wr : ℚ) : Config :=
  switch_opponent (count_perfect_win (escalate_rollout c wr) wr)

/-- `TrainPipeline.save_model` (`Train.py` lines 158-201): when the
promotion condition holds the checkpoint filename is formatted and the
aggregate is pickled under it; a `ValueError` raised by the `.format`
call propagates out of the method (aborting the opponent adjustment),
modelled as `Except.error`.  The `policy_param` snapshot (line 169) is
an opaque network blob and is not modelled. -/
def save_model (c : Config) (wr : ℚ) (epochs : ℕ) : Except String Config :=
  if promotionCond c wr then
    match formatStoreFilename c wr epochs with
    | .error e => .error e
    | .ok fname =>
        .ok (adjust_opponent
          { c with cur_best_alphazero_store_filename := fname } wr)
  else
    .ok (adjust_opponent c wr)

/-- The promotion/curriculum state logic of `save_model` under the
counterfactual that the filename formatting succeeds and returns
`fname` (the factual model is `save_model`, whose formatting always
raises — see the theorems on `formatStoreFilename`).  Returns the new
state together with whether a checkpoint write was attempted. -/
def save_modelLogic (fname : String) (c : Config) (wr : ℚ) : Config × Bool :=
  (adjust_opponent
      (if promotionCond c wr then
        { c with cur_best_alphazero_store_filename := fname }
      else c) wr,
   decide (promotionCond c wr))

/-- Python's tail slice `l[-k:]` for `k = check_freq`
(`Train.py` line 211): the last `k` elements, except that `l[-0:]` is
the whole list. -/
def pyLastSlice (l : List ℚ) (k : ℕ) : List ℚ :=
  if k = 0 then l else l.drop (l.length - k)

/-- `np.mean` on a list of rationals.  (On an empty list NumPy yields
NaN; the claims below never evaluate the mean of an empty slice.) -/
def listMean (l : List ℚ) : ℚ := l.sum / l.length

/-- The check-interval mean loss `np.mean(combined_loss_list[-check_freq:])`
of `Train.py` lines 210-211. -/
def lastCheckMean (c : Config) : ℚ :=
  listMean (pyLastSlice (c.loss_records.map (fun r => r.combined_loss)) c.check_freq)

/-- `TrainPipeline.check_loss_change` (`Train.py` lines 203-228): if the
latest check-interval mean loss is a new minimum (or no minimum is
recorded yet) the minimum is updated and the stagnation counter reset;
otherwise the counter is incremented.  Then, whenever the counter has
reached `adjust_lr_increase_loss_times`, both `learn_rate` and `kl_targ`
are divided by 10 (the counter reset after the cut is commented out in
the source, line 227). -/
def check_loss_change (c : Config) : Config :=
  let lastMean := lastCheckMean c
  let c1 :=
    match c.min_mean_loss_every_check_freq with
    | none =>
        { c with min_mean_loss_every_check_freq := some lastMean,
                 increase_mean_loss_times := 0 }
    | some m =>
        if lastMean < m then
          { c with min_mean_loss_every_check_freq := some lastMean,
                   increase_mean_loss_times := 0 }
        else
          { c with increase_mean_loss_times := c.increase_mean_loss_times + 1 }
  if c1.increase_mean_loss_times ≥ c1.adjust_lr_increase_loss_times then
    { c1 with learn_rate := c1.learn_rate / 10, kl_targ := c1.kl_targ / 10 }
  else c1

/-- `TrainPipeline.__init__` (`Train.py` line 27):
`self.config = config if config else Config()`.  The fresh default
`Config()` (constructed in the repository's `Config.py`) enters as the
`default` argument; a custom class instance is always truthy in Python,
so a supplied aggregate is taken verbatim. -/
def initConfig (default : Config) (given : Option Config) : Config :=
  given.getD default

/-- The iteration indices processed by `TrainPipeline.run`
(`Train.py` line 234): `range(start_game_num, game_batch_num)`. -/
def runIterations (c : Config) : List ℕ :=
  List.range' c.start_game_num (c.game_batch_num - c.start_game_num)

/-- One iteration of the `run` loop at index `i` (`Train.py` lines
236-257), with the parts that call external collaborators abstracted:
`preBody` covers self-play, the episode-record append and optimization
(lines 236-248) and `postBody` covers the check-frequency block of
evaluation, loss check and model saving (lines 253-257); in between, the
source sets `start_game_num = i + 1` (line 250). -/
def runStep (preBody postBody : ℕ → Config → Config) (c : Config) (i : ℕ) :
    Config :=
  postBody i { preBody i c with start_game_num := i + 1 }

/-- The `run` loop (`Train.py` lines 234-257) as a fold of `runStep`
over the iteration indices. -/
def run (preBody postBody : ℕ → Config → Config) (c : Config) : Config :=
  (runIterations c).foldl (runStep preBody postBody) c

/-- The players advancing from one pairing of `contest`
(`ModelContest.py` lines 71-77): player 1 with ratio above 0.5, both on
an exact 0.5 tie, player 2 below.  Players are identified by natural
numbers; `ratio p1 p2` is the win ratio for player 1 computed from the
`n_games` games of the pairing (an outcome oracle, since game play is
external). -/
def matchAdvance (ratio : ℕ → ℕ → ℚ) (p1 p2 : ℕ) : List ℕ :=
  if ratio p1 p2 > 1/2 then [p1]
  else if ratio p1 p2 = 1/2 then [p1, p2]
  else [p2]

/-- One round of the `contest` while-loop body (`ModelContest.py` lines
56-81): the `for player in cur_players` walk with the mutable `player1`
slot.  The slot's value on entry to the `for` loop is the first
argument: the source initialises it to `None` once before the `while`
loop and — crucially — does not reset it after the `for/else` block, so
a leftover from one round is still in the slot when the next round
starts.  Returns (`next_round_players`, the slot's value after the
`else` block, the list of pairings played this round in order).  The
`else` block appends an unpaired leftover to `next_round_players`
without clearing the slot. -/
def contestRound (ratio : ℕ → ℕ → ℚ) :
    Option ℕ → List ℕ → List ℕ × Option ℕ × List (ℕ × ℕ)
  | none, [] => ([], none, [])
  | some q, [] => ([q], some q, [])
  | none, x :: xs => contestRound ratio (some x) xs
  | some q, x :: xs =>
      let rest := contestRound ratio none xs
      (matchAdvance ratio q x ++ rest.1, rest.2.1, (q, x) :: rest.2.2)

/-- The `contest` while-loop (`ModelContest.py` lines 55-85), fuelled:
while at least 2 players remain, play a round and continue with
`next_round_players` and the un-reset `player1` slot; once fewer than 2
remain, return `cur_players[0]` (`none` models the `IndexError` on an
empty pool — and also exhausted fuel, distinguished by the claims only
through concrete runs).  The accumulated pairing list records every
head-to-head match played (each pairing plays `n_games` actual games). -/
def contest (ratio : ℕ → ℕ → ℚ) :
    ℕ → List ℕ → Option ℕ → List (ℕ × ℕ) → Option ℕ × List (ℕ × ℕ)
  | 0, pool, _, played =>
      if 2 ≤ pool.length then (none, played) else (pool.head?, played)
  | fuel + 1, pool, slot, played =>
      if 2 ≤ pool.length then
        contest ratio fuel (contestRound ratio slot pool).1
          (contestRound ratio slot pool).2.1
          (played ++ (contestRound ratio slot pool).2.2)
      else (pool.head?, played)

/-- Proposition that the tournament loop terminates on a given pool
(with the `player1` slot initially empty, as at `ModelContest.py` line
53): some fuel suffices for the while-loop to exit and produce a
winner. -/
def contestTerminates (ratio : ℕ → ℕ → ℚ) (pool : List ℕ) : Prop :=
  ∃ fuel, (contest ratio fuel pool none []).1.isSome

/-- A square board plane: `Grid n α` is an `n × n` matrix, indexed row
first, row 0 at the top (the orientation of the numpy arrays in
`Train.py`). -/
def Grid (n : ℕ) (α : Type) : Type := Fin n → Fin n → α

/-- The reversed index `n - 1 - i`, as used by all numpy flips and
rotations. -/
def rev {n : ℕ} (i : Fin n) : Fin n :=
  ⟨n - 1 - i.1, by have h := i.isLt; omega⟩

/-- `np.rot90(g, 1)`: one counterclockwise quarter turn,
`rot90(g)[i][j] = g[j][n-1-i]`. -/
def rot90 {n : ℕ} {α : Type} (g : Grid n α) : Grid n α :=
  fun i j => g j (rev i)

/-- `np.flipud(g)`: reverse the rows, `flipud(g)[i][j] = g[n-1-i][j]`. -/
def flipud {n : ℕ} {α : Type} (g : Grid n α) : Grid n α :=
  fun i j => g (rev i) j

/-- `np.fliplr(g)`: reverse each row, `fliplr(g)[i][j] = g[i][n-1-j]`. -/
def fliplr {n : ℕ} {α : Type} (g : Grid n α) : Grid n α :=
  fun i j => g i (rev j)

/-- Row-major flat index bound: `i * n + j < n * n` for `i, j < n`
(a proof-producing helper used by the index constructions below). -/
def flatIdx_lt {n : ℕ} (i j : Fin n) : i.1 * n + j.1 < n * n := by
  have h1 : i.1 * n + j.1 < i.1 * n + n := Nat.add_lt_add_left j.isLt _
  have h2 : i.1 * n + n = (i.1 + 1) * n := by ring
  have h3 : (i.1 + 1) * n ≤ n * n := Nat.mul_le_mul_right n i.isLt
  omega

/-- `v.reshape(n, n)` on a flat vector of length `n * n`
(`Train.py` line 149): row-major, `reshape(v)[i][j] = v[i*n+j]`. -/
def reshape {n : ℕ} {α : Type} (v : Fin (n * n) → α) : Grid n α :=
  fun i j => v ⟨i.1 * n + j.1, flatIdx_lt i j⟩

/-- `n` is positive whenever an index into an `n * n` vector exists
(a proof-producing helper used by the index constructions below). -/
def n_pos_of_flat {n : ℕ} (k : Fin (n * n)) : 0 < n := by
  rcases Nat.eq_zero_or_pos n with h | h
  · exact absurd k.isLt (by simp [h])
  · exact h

/-- `g.flatten()` (`Train.py` lines 151, 155): row-major,
`flatten(g)[k] = g[k / n][k % n]`. -/
def flatten {n : ℕ} {α : Type} (g : Grid n α) : Fin (n * n) → α :=
  fun k =>
    g ⟨k.1 / n, by
        have hn := n_pos_of_flat k
        exact Nat.div_lt_of_lt_mul k.isLt⟩
      ⟨k.1 % n, Nat.mod_lt _ (n_pos_of_flat k)⟩

/-- `np.rot90(g, k)`: `k` successive counterclockwise quarter turns. -/
def rotIter {n : ℕ} {α : Type} : ℕ → Grid n α → Grid n α
  | 0, g => g
  | k + 1, g => rot90 (rotIter k g)

/-- One trajectory step as stored in `play_data`: stacked state planes,
flattened move-probability vector, winner sign (`Train.py` line 131).
The board is square (`Config.py` uses equal width and height; `np.rot90`
on the stacked planes already presupposes this). -/
def TrajStep (n : ℕ) : Type :=
  List (Grid n ℚ) × (Fin (n * n) → ℚ) × ℤ

/-- `TrainPipeline.augment_data` (`Train.py` lines 128-156): for each
step and each `i in [1, 2, 3, 4]`, emit the `i`-times-rotated state with
the correspondingly rotated probability grid (the flat vector is first
reshaped and flipped upside down into board orientation, and flipped
back before flattening), then the horizontal mirror of both at that
rotation; the winner sign is copied unchanged. -/
def augment_data {n : ℕ} (play_data : List (TrajStep n)) : List (TrajStep n) :=
  play_data.flatMap (fun step =>
    [1, 2, 3, 4].flatMap (fun i =>
      let equi_state := step.1.map (rotIter i)
      let equi_mcts_prob := rotIter i (flipud (reshape step.2.1))
      [(equi_state, flatten (flipud equi_mcts_prob), step.2.2),
       (equi_state.map fliplr, flatten (flipud (fliplr equi_mcts_prob)),
        step.2.2)]))

/-- The flat move-probability vector with a single 1.0 at move index
`p`. -/
def onehot {n : ℕ} (p : Fin (n * n)) : Fin (n * n) → ℚ :=
  fun k => if k = p then 1 else 0

/-- The plane with a single 1.0 at cell `c`. -/
def indCell {n : ℕ} (c : Fin n × Fin n) : Grid n ℚ :=
  fun i j => if i = c.1 ∧ j = c.2 then 1 else 0

/-- The plane cell holding board position `p` under the board's
bottom-up indexing (`Train.py` lines 134-143: moves `0,1,2` are the
bottom row of the plane, so position `p` sits at row `n - 1 - p / n`,
column `p % n`). -/
def cellOf {n : ℕ} (p : Fin (n * n)) : Fin n × Fin n :=
  (rev ⟨p.1 / n, Nat.div_lt_of_lt_mul p.isLt⟩,
   ⟨p.1 % n, Nat.mod_lt _ (n_pos_of_flat p)⟩)

/-- The board position whose stone sits at plane cell `c` (inverse of
`cellOf`). -/
def posOf {n : ℕ} (c : Fin n × Fin n) : Fin (n * n) :=
  ⟨(rev c.1).1 * n + c.2.1, flatIdx_lt _ _⟩

/-- The plane with a single 1.0 at the cell of board position `p`. -/
def indGrid {n : ℕ} (p : Fin (n * n)) : Grid n ℚ :=
  indCell (cellOf p)

/-- The action of one counterclockwise quarter turn on a cell:
`rot90` moves the stone at cell `(a, b)` to cell `(n-1-b, a)`. -/
def cellRot90 {n : ℕ} (c : Fin n × Fin n) : Fin n × Fin n :=
  (rev c.2, c.1)

/-- `k` quarter turns on a cell. -/
def cellRotIter {n : ℕ} : ℕ → Fin n × Fin n → Fin n × Fin n
  | 0, c => c
  | k + 1, c => cellRot90 (cellRotIter k c)

/-- A concrete training state with the rollout opponent at strength
1000 and no recorded best ratio (the situation right after a strength
escalation reset, or at a fresh start), used to instantiate the
state-dependent theorems below. -/
def cfgPure : Config :=
  { board_width := 6, board_height := 6, n_in_row := 4,
    evaluate_opponent := "Pure", best_win_pure_so_far := 0,
    pure_mcts_playout_num := 1000, continuous_win_pure_times := 0,
    change_opponent_continuous_times := 3, win_ratio_alphazero := 11/20,
    cur_best_alphazero_store_filename := "", learn_rate := 1/500,
    lr_multiplier := 1, kl_targ := 1/50,
    min_mean_loss_every_check_freq := none, increase_mean_loss_times := 0,
    adjust_lr_increase_loss_times := 2, check_freq := 2,
    start_game_num := 0, game_batch_num := 1000, data_buffer := [],
    loss_records := [], episode_records := [] }

/-- A training state whose loss-stagnation counter has already reached
the cut threshold, with a recorded minimum mean loss of 1 and two
subsequent check-interval losses of 2. -/
def cfgStagnant : Config :=
  { cfgPure with
    min_mean_loss_every_check_freq := some 1,
    increase_mean_loss_times := 2,
    loss_records := [⟨2, 0, 0, 0⟩, ⟨2, 0, 0, 0⟩] }

/-- A training state persisted after completing loop iteration 5
(`start_game_num = 6`). -/
def cfgResumed : Config :=
  { cfgPure with start_game_num := 6, game_batch_num := 10 }

/-- A sample move index on the 2 × 2 board, used to instantiate the
augmentation theorem. -/
def sampleMove : Fin (2 * 2) := ⟨1, by norm_num⟩

/-- Outcome oracle: player 1 wins every pairing outright. -/
def allWinFirst : ℕ → ℕ → ℚ := fun _ _ => 1

/-- Outcome oracle: every pairing is an exact 0.5 tie. -/
def allTie : ℕ → ℕ → ℚ := fun _ _ => 1/2

/-- Outcome oracle: the lower-numbered player always wins (never a
tie). -/
def lowerWins : ℕ → ℕ → ℚ := fun x y => if x < y then 1 else 0

/-- C4: on an adjustment-boundary iteration the multiplier is updated by
the KL rule and only by it: division by 1.5 exactly when KL exceeds
`2 * kl_targ` and the multiplier is strictly above the floor 0.1,
multiplication by 1.5 exactly when KL is below `kl_targ / 2` and the
multiplier is strictly below the ceiling 10, and no change in every
other case — in particular when KL is high but the multiplier is at or
below the floor.  (The target threshold is nonnegative, as any KL
target is.) -/
theorem adjust_learning_rate_spec (kl kl_targ m : ℚ) (htarg : 0 ≤ kl_targ) :
    (kl > kl_targ * 2 ∧ m > 1/10 →
      adjust_learning_rate kl kl_targ m = m / (3/2)) ∧
    (kl < kl_targ / 2 ∧ m < 10 →
      adjust_learning_rate kl kl_targ m = m * (3/2)) ∧
    (kl > kl_targ * 2 ∧ m ≤ 1/10 →
      adjust_learning_rate kl kl_targ m = m) ∧
    (¬(kl > kl_targ * 2 ∧ m > 1/10) ∧ ¬(kl < kl_targ / 2 ∧ m < 10) →
      adjust_learning_rate kl kl_targ m = m) := by
  refine ⟨fun h => ?_, fun h => ?_, fun h => ?_, fun h => ?_⟩
  · simp only [adjust_learning_rate, if_pos h]
  · have hnot : ¬(kl > kl_targ * 2 ∧ m > 1/10) := by
      rintro ⟨h1, _⟩
      have : kl_targ / 2 ≤ kl_targ * 2 := by linarith
      linarith [h.1]
    simp only [adjust_learning_rate, if_neg hnot, if_pos h]
  · have hnot : ¬(kl > kl_targ * 2 ∧ m > 1/10) := by
      rintro ⟨_, h2⟩; linarith [h.2]
    have hnot2 : ¬(kl < kl_targ / 2 ∧ m < 10) := by
      rintro ⟨h1, _⟩
      have : kl_targ / 2 ≤ kl_targ * 2 := by linarith
      linarith [h.1]
    simp only [adjust_learning_rate, if_neg hnot, if_neg hnot2]
  · simp only [adjust_learning_rate, if_neg h.1, if_neg h.2]

/-- Witness for `adjust_learning_rate_spec`: at KL 1, target 1/4 and a
multiplier exactly at the floor 1/10, the multiplier is unchanged. -/
theorem adjust_learning_rate_spec_witness :
    adjust_learning_rate 1 (1/4) (1/10) = 1/10 :=
  (adjust_learning_rate_spec 1 (1/4) (1/10) (by norm_num)).2.2.1
    ⟨by norm_num, by norm_num⟩

/-- C10: the stagnation counter is not reset by the learning-rate cut
itself (the reset is commented out in the source): on any call whose
check-interval mean loss is not strictly below the recorded minimum and
whose counter has already reached the threshold, the counter grows
again, the threshold and minimum are unchanged, and both `learn_rate`
and `kl_targ` are divided by 10 once more — so repeated stagnation
compounds the cut tenfold per check. -/
theorem check_loss_change_compounds (c : Config) (m : ℚ)
    (hmin : c.min_mean_loss_every_check_freq = some m)
    (hstag : ¬ lastCheckMean c < m)
    (hcnt : c.adjust_lr_increase_loss_times ≤ c.increase_mean_loss_times) :
    (check_loss_change c).learn_rate = c.learn_rate / 10 ∧
    (check_loss_change c).kl_targ = c.kl_targ / 10 ∧
    (check_loss_change c).increase_mean_loss_times =
      c.increase_mean_loss_times + 1 ∧
    (check_loss_change c).min_mean_loss_every_check_freq = some m ∧
    (check_loss_change c).adjust_lr_increase_loss_times =
      c.adjust_lr_increase_loss_times := by
  unfold check_loss_change
  rw [hmin]
  simp only [if_neg hstag]
  have hge : c.increase_mean_loss_times + 1 ≥ c.adjust_lr_increase_loss_times := by
    omega
  simp [if_pos hge]

/-- Witness for `check_loss_change_compounds` at the concrete stagnant
state: the base learning rate 1/500 is cut to 1/5000 and the KL target
1/50 to 1/500, while the counter climbs to 3. -/
theorem check_loss_change_compounds_witness :
    (check_loss_change cfgStagnant).learn_rate = cfgStagnant.learn_rate / 10 ∧
    (check_loss_change cfgStagnant).kl_targ = cfgStagnant.kl_targ / 10 ∧
    (check_loss_change cfgStagnant).increase_mean_loss_times =
      cfgStagnant.increase_mean_loss_times + 1 ∧
    (check_loss_change cfgStagnant).min_mean_loss_every_check_freq = some 1 ∧
    (check_loss_change cfgStagnant).adjust_lr_increase_loss_times =
      cfgStagnant.adjust_lr_increase_loss_times :=
  check_loss_change_compounds cfgStagnant 1 rfl
    (by norm_num [lastCheckMean, listMean, pyLastSlice, cfgStagnant, cfgPure])
    (by decide)

/-- C7: a pipeline constructed from a supplied aggregate keeps it
verbatim (in particular the buffer, the loss and episode histories and
the curriculum state), while a missing aggregate yields the fresh
default; an aggregate persisted after completing iteration `k` stores
`start_game_num = k + 1`, the run loop walks exactly
`range(start_game_num, game_batch_num)` so the first iteration it
processes is `k + 1`; and each completed iteration `i` stores
`start_game_num = i + 1` (given that the post-assignment block of the
loop body leaves the counter alone, as evaluation/loss-check/saving
do). -/
theorem resume_spec (d c : Config) (preB postB : ℕ → Config → Config) (k : ℕ) :
    initConfig d (some c) = c ∧
    initConfig d none = d ∧
    (initConfig d (some c)).data_buffer = c.data_buffer ∧
    (initConfig d (some c)).loss_records = c.loss_records ∧
    (initConfig d (some c)).episode_records = c.episode_records ∧
    (initConfig d (some c)).evaluate_opponent = c.evaluate_opponent ∧
    (initConfig d (some c)).best_win_pure_so_far = c.best_win_pure_so_far ∧
    (initConfig d (some c)).pure_mcts_playout_num = c.pure_mcts_playout_num ∧
    (c.start_game_num = k + 1 → k + 1 < c.game_batch_num →
      (runIterations c).head? = some (k + 1)) ∧
    ((∀ i x, (postB i x).start_game_num = x.start_game_num) →
      ∀ i x, (runStep preB postB x i).start_game_num = i + 1) := by
  refine ⟨rfl, rfl, rfl, rfl, rfl, rfl, rfl, rfl, fun h1 h2 => ?_,
    fun hpost i x => ?_⟩
  · unfold runIterations
    obtain ⟨l, hl⟩ : ∃ l, c.game_batch_num - c.start_game_num = l + 1 :=
      ⟨c.game_batch_num - c.start_game_num - 1, by omega⟩
    rw [hl, h1]
    rfl
  · unfold runStep
    rw [hpost]

/-- Witness for `resume_spec`: resuming the concrete state persisted
after iteration 5 processes iteration 6 first, and a completed
iteration 9 stores counter 10. -/
theorem resume_spec_witness :
    (runIterations cfgResumed).head? = some 6 ∧
    (runStep (fun _ x => x) (fun _ x => x) cfgResumed 9).start_game_num = 10 :=
  ⟨(resume_spec cfgPure cfgResumed (fun _ x => x) (fun _ x => x) 5).2.2.2.2.2.2.2.2.1
      rfl (by decide),
   (resume_spec cfgPure cfgResumed (fun _ x => x) (fun _ x => x) 5).2.2.2.2.2.2.2.2.2
      (fun _ _ => rfl) 9 cfgResumed⟩

theorem switch_opponent_thresh (c : Config) :
    (switch_opponent c).change_opponent_continuous_times =
      c.change_opponent_continuous_times := by
  unfold switch_opponent; split_ifs <;> rfl

theorem escalate_rollout_counter (c : Config) (wr : ℚ) :
    (escalate_rollout c wr).continuous_win_pure_times =
      c.continuous_win_pure_times := by
  unfold escalate_rollout; split_ifs <;> rfl

theorem escalate_rollout_of_ne_one (c : Config) (wr : ℚ) (hne : wr ≠ 1) :
    escalate_rollout c wr = c := by
  unfold escalate_rollout
  split_ifs with h1 h2
  · exact absurd h2.1 hne
  · rfl
  · rfl

theorem count_perfect_win_of_ne_one (c : Config) (wr : ℚ) (hne : wr ≠ 1) :
    count_perfect_win c wr = c := by
  unfold count_perfect_win
  rw [if_neg]
  rintro ⟨_, _, h⟩
  exact hne h

/-- C6: whenever the promotion condition holds, the checkpoint filename
`.format` call mixes automatic fields with the manually numbered
`\x7b0\x7d`, so CPython raises
`ValueError: cannot switch from automatic field numbering to manual field specification`
— `save_model` aborts with this error and no checkpoint is ever written
under the claimed name (nor any other). -/
theorem save_model_format_raises (c : Config) (wr : ℚ) (epochs : ℕ)
    (h : promotionCond c wr) :
    formatStoreFilename c wr epochs =
      Except.error
        "cannot switch from automatic field numbering to manual field specification" ∧
    save_model c wr epochs =
      Except.error
        "cannot switch from automatic field numbering to manual field specification" := by
  have hf : formatStoreFilename c wr epochs =
      Except.error
        "cannot switch from automatic field numbering to manual field specification" := rfl
  refine ⟨hf, ?_⟩
  unfold save_model
  rw [if_pos h, hf]

/-- Witness for `save_model_format_raises`: a 0.9 win ratio over the
rollout baseline (a promotion per `Train.py` line 163) crashes the
checkpoint write. -/
theorem save_model_format_raises_witness :
    save_model cfgPure (9/10) 100 =
      Except.error
        "cannot switch from automatic field numbering to manual field specification" :=
  (save_model_format_raises cfgPure (9/10) 100
    (Or.inl ⟨rfl, by norm_num [cfgPure]⟩)).2

/-- C1: the best-ratio tracker is never updated to an achieved ratio.
At the concrete state (rollout opponent, strength 1000, recorded best
0.0) a 0.8 ratio triggers promotion — whose checkpoint write in fact
raises `ValueError` (see `save_model_format_raises`) — yet even under
the counterfactual that the write succeeds, `best_win_pure_so_far`
still holds 0.0 rather than 0.8 afterwards, so the strictly lower
later ratio 0.6 satisfies the promotion condition again, contradicting
the claim that the tracker records each new best so that an equal or
lower ratio cannot re-trigger promotion. -/
theorem best_tracker_never_updated :
    promotionCond cfgPure (4/5) ∧
    save_model cfgPure (4/5) 100 =
      Except.error
        "cannot switch from automatic field numbering to manual field specification" ∧
    (save_modelLogic "f" cfgPure (4/5)).2 = true ∧
    (save_modelLogic "f" cfgPure (4/5)).1.best_win_pure_so_far =
      cfgPure.best_win_pure_so_far ∧
    (save_modelLogic "f" cfgPure (4/5)).1.best_win_pure_so_far ≠ 4/5 ∧
    promotionCond (save_modelLogic "f" cfgPure (4/5)).1 (3/5) := by
  have hne : (4/5 : ℚ) ≠ 1 := by norm_num
  have hprom : promotionCond cfgPure (4/5) :=
    Or.inl ⟨rfl, by norm_num [cfgPure]⟩
  have hlogic : (save_modelLogic "f" cfgPure (4/5)).1 =
      switch_opponent
        { cfgPure with cur_best_alphazero_store_filename := "f" } := by
    rw [save_modelLogic, if_pos hprom]
    dsimp only
    rw [adjust_opponent, escalate_rollout_of_ne_one _ _ hne,
      count_perfect_win_of_ne_one _ _ hne]
  have hsw : switch_opponent
        { cfgPure with cur_best_alphazero_store_filename := "f" } =
      { cfgPure with cur_best_alphazero_store_filename := "f" } := by
    rw [switch_opponent, if_neg]
    rintro ⟨_, h⟩
    exact absurd h (by decide)
  have hfull : (save_modelLogic "f" cfgPure (4/5)).1 =
      { cfgPure with cur_best_alphazero_store_filename := "f" } := by
    rw [hlogic, hsw]
  have herr : save_model cfgPure (4/5) 100 =
      Except.error
        "cannot switch from automatic field numbering to manual field specification" := by
    unfold save_model
    rw [if_pos hprom]
    rfl
  refine ⟨hprom, herr, ?_, ?_, ?_, ?_⟩
  · rw [save_modelLogic]
    exact decide_eq_true hprom
  · rw [hfull]
  · rw [hfull]
    norm_num [cfgPure]
  · rw [hfull]
    exact Or.inl ⟨rfl, by norm_num [cfgPure]⟩

/-- C2: the `player1` slot is not cleared after the odd-pool leftover
branch, so a checkpoint from one round leaks into the next round's
pairings.  With pool `[0, 1, 2]` and player 1 winning every pairing:
round 1 pairs `(0, 1)` and advances `[0, 2]` with the leftover `2`
still in the slot; round 2 then pairs the stale `2` against the new
round's first player `0` — a pairing the claim forbids — and also
re-appends `2` as leftover, producing the duplicated pool `[2, 2]`
(where `2` is next paired against itself). -/
theorem contest_stale_player1_leak :
    contestRound allWinFirst none [0, 1, 2] = ([0, 2], some 2, [(0, 1)]) ∧
    contestRound allWinFirst (some 2) [0, 2] = ([2, 2], some 2, [(2, 0)]) := by
  constructor <;> norm_num [contestRound, matchAdvance, allWinFirst]

theorem contest_allTie_round :
    contestRound allTie none [0, 1] = ([0, 1], none, [(0, 1)]) := by
  norm_num [contestRound, matchAdvance, allTie]

theorem contest_allTie_step (fuel : ℕ) :
    ∀ played, (contest allTie fuel [0, 1] none played).1 = none := by
  induction fuel with
  | zero => intro played; rfl
  | succ n ih =>
      intro played
      rw [contest, if_pos (by norm_num : 2 ≤ ([0, 1] : List ℕ).length),
        contest_allTie_round]
      exact ih (played ++ [(0, 1)])

/-- C8 counterexample: with two checkpoints that tie (ratio exactly
0.5) in every match, both always advance, the pool never shrinks below
2 and the tournament loop never terminates — so it is not the case that
every outcome sequence yields a single winner in finitely many
rounds. -/
theorem contest_ties_never_terminate : ¬ contestTerminates allTie [0, 1] := by
  rintro ⟨fuel, h⟩
  rw [contest_allTie_step fuel []] at h
  exact absurd h (by simp)

theorem contestRound_even_length (r : ℕ → ℕ → ℚ)
    (hnt : ∀ x y, r x y ≠ 1/2) :
    ∀ (m : ℕ) (pool : List ℕ), pool.length = 2 * m →
      (contestRound r none pool).1.length = m ∧
      (contestRound r none pool).2.1 = none := by
  intro m
  induction m with
  | zero =>
      intro pool h
      have : pool = [] := List.eq_nil_of_length_eq_zero (by omega)
      subst this
      exact ⟨rfl, rfl⟩
  | succ k ih =>
      intro pool h
      match pool, h with
      | x :: y :: rest, h =>
        have hr : rest.length = 2 * k := by
          simp only [List.length_cons] at h
          omega
        have hm : (matchAdvance r x y).length = 1 := by
          unfold matchAdvance
          split_ifs with h1 h2
          · rfl
          · exact absurd h2 (hnt x y)
          · rfl
        obtain ⟨ih1, ih2⟩ := ih rest hr
        constructor
        · show (matchAdvance r x y ++ (contestRound r none rest).1).length = k + 1
          rw [List.length_append, hm, ih1]
          omega
        · exact ih2

/-- C8 (amended): the termination guarantee does hold for the
tie-free, power-of-two case the bracket is designed around: for a pool
of `2 ^ k` checkpoints and an outcome oracle that never produces an
exact 0.5 tie, the tournament terminates within `k = ceil(log2 n)`
rounds with exactly one winner.  (Ties, and the stale-slot leak after
odd rounds, each break termination — see
`contest_ties_never_terminate`.) -/
theorem contest_pow2_no_ties_terminates (r : ℕ → ℕ → ℚ) (k : ℕ)
    (pool : List ℕ) (played : List (ℕ × ℕ))
    (hlen : pool.length = 2 ^ k) (hnt : ∀ x y, r x y ≠ 1/2) :
    (contest r k pool none played).1.isSome = true := by
  induction k generalizing pool played with
  | zero =>
      obtain ⟨a, rfl⟩ : ∃ a, pool = [a] :=
        List.length_eq_one.mp (by simpa using hlen)
      rfl
  | succ k ih =>
      have h2 : 2 ≤ pool.length := by
        rw [hlen]
        calc 2 = 2 ^ 1 := rfl
          _ ≤ 2 ^ (k + 1) := Nat.pow_le_pow_right (by omega) (by omega)
      obtain ⟨r1, rnone⟩ :=
        contestRound_even_length r hnt (2 ^ k) pool
          (by rw [hlen]; ring)
      show (contest r (k + 1) pool none played).1.isSome = true
      rw [contest, if_pos h2]
      rw [rnone]
      exact ih _ _ r1

/-- Witness for `contest_pow2_no_ties_terminates`: four checkpoints
with the lower-numbered player always winning produce a winner within
2 rounds. -/
theorem contest_pow2_no_ties_terminates_witness :
    (contest lowerWins 2 [0, 1, 2, 3] none []).1.isSome = true :=
  contest_pow2_no_ties_terminates lowerWins 2 [0, 1, 2, 3] [] rfl
    (fun x y => by
      unfold lowerWins
      split_ifs <;> norm_num)

/-- C9 counterexample: a pool with a single checkpoint `7` is not
reported as a configuration error — the judge plays no games and
silently returns the lone participant as the final winner. -/
theorem contest_lone_checkpoint_cex :
    contest allWinFirst 5 [7] none [] = (some 7, []) := rfl

/-- C9 (amended): the judge performs no pool-size validation.  With
fewer than 2 checkpoints the while-loop never runs, so no pairing is
ever played; a lone checkpoint is silently returned as the winner, and
an empty pool produces no winner at all (the `cur_players[0]` lookup
raises `IndexError`), in neither case reporting a configuration
error. -/
theorem contest_small_pool_spec (r : ℕ → ℕ → ℚ) (fuel : ℕ) (a : ℕ) :
    contest r fuel [a] none [] = (some a, []) ∧
    contest r fuel [] none [] = (none, []) := by
  cases fuel <;> exact ⟨rfl, rfl⟩

theorem rev_rev {n : ℕ} (i : Fin n) : rev (rev i) = i :=
  Fin.val_injective (by
    simp only [rev]
    have h := i.isLt
    omega)

theorem rev_eq_comm {n : ℕ} {i q : Fin n} : rev i = q ↔ i = rev q := by
  constructor
  · rintro rfl
    exact (rev_rev i).symm
  · rintro rfl
    exact rev_rev q

theorem val_divmod {n : ℕ} (i j : Fin n) (k : ℕ) :
    (k / n = i.1 ∧ k % n = j.1) ↔ k = i.1 * n + j.1 := by
  have hn : 0 < n := lt_of_le_of_lt (Nat.zero_le _) i.isLt
  constructor
  · rintro ⟨h1, h2⟩
    have h := Nat.div_add_mod k n
    rw [h1, h2, Nat.mul_comm n i.1] at h
    exact h.symm
  · rintro rfl
    constructor
    · rw [Nat.mul_comm, Nat.mul_add_div hn, Nat.div_eq_of_lt j.isLt,
        Nat.add_zero]
    · rw [Nat.mul_comm, Nat.mul_add_mod, Nat.mod_eq_of_lt j.isLt]

theorem rot90_indCell {n : ℕ} (c : Fin n × Fin n) :
    rot90 (indCell c) = indCell (cellRot90 c) := by
  funext i j
  simp only [rot90, indCell, cellRot90]
  refine if_congr ?_ rfl rfl
  constructor
  · rintro ⟨h1, h2⟩
    exact ⟨rev_eq_comm.mp h2, h1⟩
  · rintro ⟨h1, h2⟩
    exact ⟨h2, rev_eq_comm.mpr h1⟩

theorem fliplr_indCell {n : ℕ} (c : Fin n × Fin n) :
    fliplr (indCell c) = indCell (c.1, rev c.2) := by
  funext i j
  simp only [fliplr, indCell]
  refine if_congr ?_ rfl rfl
  constructor
  · rintro ⟨h1, h2⟩
    exact ⟨h1, rev_eq_comm.mp h2⟩
  · rintro ⟨h1, h2⟩
    exact ⟨h1, rev_eq_comm.mpr h2⟩

theorem rotIter_indCell {n : ℕ} (k : ℕ) (c : Fin n × Fin n) :
    rotIter k (indCell c) = indCell (cellRotIter k c) := by
  induction k with
  | zero => rfl
  | succ m ih =>
      show rot90 (rotIter m (indCell c)) = _
      rw [ih, rot90_indCell]
      rfl

theorem cellOf_posOf {n : ℕ} (c : Fin n × Fin n) : cellOf (posOf c) = c := by
  obtain ⟨h1, h2⟩ :=
    (val_divmod (rev c.1) c.2 ((rev c.1).1 * n + c.2.1)).mpr rfl
  rw [Prod.ext_iff]
  constructor
  · apply Fin.val_injective
    show n - 1 - ((rev c.1).1 * n + c.2.1) / n = c.1.1
    rw [h1]
    show n - 1 - (n - 1 - c.1.1) = c.1.1
    have h := c.1.isLt
    omega
  · exact Fin.val_injective h2

theorem indGrid_posOf {n : ℕ} (c : Fin n × Fin n) :
    indGrid (posOf c) = indCell c := by
  rw [indGrid, cellOf_posOf]

theorem reshape_flipud_onehot {n : ℕ} (p : Fin (n * n)) :
    flipud (reshape (onehot p)) = indGrid p := by
  funext i j
  show (if (⟨(rev i).1 * n + j.1, flatIdx_lt (rev i) j⟩ : Fin (n * n)) = p
        then (1 : ℚ) else 0) =
      (if i = (cellOf p).1 ∧ j = (cellOf p).2 then 1 else 0)
  refine if_congr ?_ rfl rfl
  constructor
  · intro h
    have hval : p.1 = (rev i).1 * n + j.1 := (congrArg Fin.val h).symm
    obtain ⟨h1, h2⟩ := (val_divmod (rev i) j p.1).mpr hval
    constructor
    · apply Fin.val_injective
      show i.1 = n - 1 - p.1 / n
      rw [h1]
      show i.1 = n - 1 - (n - 1 - i.1)
      have h := i.isLt
      omega
    · apply Fin.val_injective
      show j.1 = p.1 % n
      omega
  · rintro ⟨hi, hj⟩
    apply Fin.val_injective
    show (rev i).1 * n + j.1 = p.1
    refine ((val_divmod (rev i) j p.1).mp ⟨?_, ?_⟩).symm
    · rw [hi]
      show p.1 / n = n - 1 - (n - 1 - p.1 / n)
      have hd : p.1 / n < n := Nat.div_lt_of_lt_mul p.isLt
      revert hd
      generalize p.1 / n = x
      intro hd
      omega
    · rw [hj]
      rfl

theorem flatten_flipud_indCell {n : ℕ} (c : Fin n × Fin n) :
    flatten (flipud (indCell c)) = onehot (posOf c) := by
  funext k
  show (if rev ⟨k.1 / n, Nat.div_lt_of_lt_mul k.isLt⟩ = c.1 ∧
          (⟨k.1 % n, Nat.mod_lt _ (n_pos_of_flat k)⟩ : Fin n) = c.2
        then (1 : ℚ) else 0) =
      (if k = posOf c then 1 else 0)
  refine if_congr ?_ rfl rfl
  constructor
  · rintro ⟨h1, h2⟩
    apply Fin.val_injective
    show k.1 = (rev c.1).1 * n + c.2.1
    refine (val_divmod (rev c.1) c.2 k.1).mp ⟨?_, congrArg Fin.val h2⟩
    exact congrArg Fin.val (rev_eq_comm.mp h1)
  · intro h
    have hval : k.1 = (rev c.1).1 * n + c.2.1 := congrArg Fin.val h
    obtain ⟨h1, h2⟩ := (val_divmod (rev c.1) c.2 k.1).mpr hval
    exact ⟨rev_eq_comm.mpr (Fin.val_injective h1), Fin.val_injective h2⟩

/-- C3: `augment_data` expands every trajectory step into exactly 8
steps (4 rotation amounts, each with its horizontal mirror), every
output step carries the input's outcome sign unchanged, and the
probability vector stays in lockstep with the state planes: for an
input whose plane marks board position `p` and whose flat probability
vector is 1.0 exactly at `p` (under the board's bottom-up flattened
indexing), every output step is again a marked-position plane together
with the one-hot vector of that same transformed position. -/
theorem augment_data_spec {n : ℕ} (s : List (Grid n ℚ))
    (v : Fin (n * n) → ℚ) (w : ℤ) (p : Fin (n * n)) :
    (augment_data [(s, v, w)]).length = 8 ∧
    (∀ t ∈ augment_data [(s, v, w)], t.2.2 = w) ∧
    (∀ t ∈ augment_data [([indGrid p], onehot p, w)],
      ∃ q, t.1 = [indGrid q] ∧ t.2.1 = onehot q) := by
  have hip : indGrid p = indCell (cellOf p) := rfl
  have key : ∀ i : ℕ, ∃ q : Fin (n * n),
      [rotIter i (indGrid p)] = [indGrid q] ∧
      flatten (flipud (rotIter i (flipud (reshape (onehot p))))) = onehot q := by
    intro i
    refine ⟨posOf (cellRotIter i (cellOf p)), ?_, ?_⟩
    · rw [hip, rotIter_indCell, indGrid_posOf]
    · rw [reshape_flipud_onehot, hip, rotIter_indCell, flatten_flipud_indCell]
  have keyM : ∀ i : ℕ, ∃ q : Fin (n * n),
      [fliplr (rotIter i (indGrid p))] = [indGrid q] ∧
      flatten (flipud (fliplr (rotIter i (flipud (reshape (onehot p)))))) =
        onehot q := by
    intro i
    refine ⟨posOf ((cellRotIter i (cellOf p)).1, rev (cellRotIter i (cellOf p)).2),
      ?_, ?_⟩
    · rw [hip, rotIter_indCell, fliplr_indCell, indGrid_posOf]
    · rw [reshape_flipud_onehot, hip, rotIter_indCell, fliplr_indCell,
        flatten_flipud_indCell]
  refine ⟨rfl, ?_, ?_⟩
  · intro t ht
    have hlist : augment_data [(s, v, w)] =
        [(s.map (rotIter 1),
            flatten (flipud (rotIter 1 (flipud (reshape v)))), w),
         ((s.map (rotIter 1)).map fliplr,
            flatten (flipud (fliplr (rotIter 1 (flipud (reshape v))))), w),
         (s.map (rotIter 2),
            flatten (flipud (rotIter 2 (flipud (reshape v)))), w),
         ((s.map (rotIter 2)).map fliplr,
            flatten (flipud (fliplr (rotIter 2 (flipud (reshape v))))), w),
         (s.map (rotIter 3),
            flatten (flipud (rotIter 3 (flipud (reshape v)))), w),
         ((s.map (rotIter 3)).map fliplr,
            flatten (flipud (fliplr (rotIter 3 (flipud (reshape v))))), w),
         (s.map (rotIter 4),
            flatten (flipud (rotIter 4 (flipud (reshape v)))), w),
         ((s.map (rotIter 4)).map fliplr,
            flatten (flipud (fliplr (rotIter 4 (flipud (reshape v))))), w)] := rfl
    rw [hlist] at ht
    simp only [List.mem_cons, List.not_mem_nil, or_false] at ht
    rcases ht with rfl | rfl | rfl | rfl | rfl | rfl | rfl | rfl <;> rfl
  · intro t ht
    have hlist : augment_data [([indGrid p], onehot p, w)] =
        [([rotIter 1 (indGrid p)],
            flatten (flipud (rotIter 1 (flipud (reshape (onehot p))))), w),
         ([fliplr (rotIter 1 (indGrid p))],
            flatten (flipud (fliplr (rotIter 1 (flipud (reshape (onehot p)))))), w),
         ([rotIter 2 (indGrid p)],
            flatten (flipud (rotIter 2 (flipud (reshape (onehot p))))), w),
         ([fliplr (rotIter 2 (indGrid p))],
            flatten (flipud (fliplr (rotIter 2 (flipud (reshape (onehot p)))))), w),
         ([rotIter 3 (indGrid p)],
            flatten (flipud (rotIter 3 (flipud (reshape (onehot p))))), w),
         ([fliplr (rotIter 3 (indGrid p))],
            flatten (flipud (fliplr (rotIter 3 (flipud (reshape (onehot p)))))), w),
         ([rotIter 4 (indGrid p)],
            flatten (flipud (rotIter 4 (flipud (reshape (onehot p))))), w),
         ([fliplr (rotIter 4 (indGrid p))],
            flatten (flipud (fliplr (rotIter 4 (flipud (reshape (onehot p)))))), w)] := rfl
    rw [hlist] at ht
    simp only [List.mem_cons, List.not_mem_nil, or_false] at ht
    rcases ht with rfl | rfl | rfl | rfl | rfl | rfl | rfl | rfl
    · exact key 1
    · exact keyM 1
    · exact key 2
    · exact keyM 2
    · exact key 3
    · exact keyM 3
    · exact key 4
    · exact keyM 4

/-- Witness for `augment_data_spec` on the 2 × 2 board at move 1: the
orbit has 8 steps, the first output keeps winner sign 1, and its
one-hot probability tracks its transformed plane. -/
theorem augment_data_spec_witness :
    (augment_data [([indGrid sampleMove], onehot sampleMove, (1 : ℤ))]).length
        = 8 ∧
    ([indGrid sampleMove].map (rotIter 1),
      flatten (flipud (rotIter 1 (flipud (reshape (onehot sampleMove))))),
      (1 : ℤ)).2.2 = 1 ∧
    ∃ q, ([rotIter 1 (indGrid sampleMove)],
      flatten (flipud (rotIter 1 (flipud (reshape (onehot sampleMove))))),
      (1 : ℤ)).1 = [indGrid q] ∧
      ([rotIter 1 (indGrid sampleMove)],
        flatten (flipud (rotIter 1 (flipud (reshape (onehot sampleMove))))),
        (1 : ℤ)).2.1 = onehot q :=
  ⟨(augment_data_spec [indGrid sampleMove] (onehot sampleMove) 1 sampleMove).1,
   (augment_data_spec [indGrid sampleMove] (onehot sampleMove) 1 sampleMove).2.1
     _ (List.mem_cons_self _ _),
   (augment_data_spec [indGrid sampleMove] (onehot sampleMove) 1 sampleMove).2.2
     _ (List.mem_cons_self _ _)⟩

end AlphaZeroGobang
